import Mathlib

/-!
Verification development for a small Whitted-style ray tracer written in Rust
(src/src/main.rs).  The f64 arithmetic of the program is modelled by real
arithmetic: machine `sqrt` becomes `Real.sqrt`, `f64::MAX` becomes the exact
real value of that constant, and the saturating `as isize` / `as u8` casts are
modelled by truncation toward zero with the same saturation bounds.
-/

/-- Three dimensional vector of real components, modelling vek `Vec3<f64>`. -/
@[ext] structure Vec3 where
  x : ℝ
  y : ℝ
  z : ℝ

/-- The zero vector; both `Vec3::zero()` and `Vec3::default()` in the source. -/
def Vec3.zero : Vec3 := ⟨0, 0, 0⟩

instance : Add Vec3 := ⟨fun a b => ⟨a.x + b.x, a.y + b.y, a.z + b.z⟩⟩

instance : Sub Vec3 := ⟨fun a b => ⟨a.x - b.x, a.y - b.y, a.z - b.z⟩⟩

instance : Neg Vec3 := ⟨fun a => ⟨-a.x, -a.y, -a.z⟩⟩

instance : HMul Vec3 ℝ Vec3 := ⟨fun v s => ⟨v.x * s, v.y * s, v.z * s⟩⟩

instance : HMul ℝ Vec3 Vec3 := ⟨fun s v => ⟨s * v.x, s * v.y, s * v.z⟩⟩

@[simp] lemma Vec3.add_x (a b : Vec3) : (a + b).x = a.x + b.x := rfl
@[simp] lemma Vec3.add_y (a b : Vec3) : (a + b).y = a.y + b.y := rfl
@[simp] lemma Vec3.add_z (a b : Vec3) : (a + b).z = a.z + b.z := rfl
@[simp] lemma Vec3.sub_x (a b : Vec3) : (a - b).x = a.x - b.x := rfl
@[simp] lemma Vec3.sub_y (a b : Vec3) : (a - b).y = a.y - b.y := rfl
@[simp] lemma Vec3.sub_z (a b : Vec3) : (a - b).z = a.z - b.z := rfl
@[simp] lemma Vec3.neg_x (a : Vec3) : (-a).x = -a.x := rfl
@[simp] lemma Vec3.neg_y (a : Vec3) : (-a).y = -a.y := rfl
@[simp] lemma Vec3.neg_z (a : Vec3) : (-a).z = -a.z := rfl
@[simp] lemma Vec3.smul_x (v : Vec3) (s : ℝ) : (v * s).x = v.x * s := rfl
@[simp] lemma Vec3.smul_y (v : Vec3) (s : ℝ) : (v * s).y = v.y * s := rfl
@[simp] lemma Vec3.smul_z (v : Vec3) (s : ℝ) : (v * s).z = v.z * s := rfl
@[simp] lemma Vec3.lsmul_x (s : ℝ) (v : Vec3) : (s * v).x = s * v.x := rfl
@[simp] lemma Vec3.lsmul_y (s : ℝ) (v : Vec3) : (s * v).y = s * v.y := rfl
@[simp] lemma Vec3.lsmul_z (s : ℝ) (v : Vec3) : (s * v).z = s * v.z := rfl
@[simp] lemma Vec3.zero_x : Vec3.zero.x = 0 := rfl
@[simp] lemma Vec3.zero_y : Vec3.zero.y = 0 := rfl
@[simp] lemma Vec3.zero_z : Vec3.zero.z = 0 := rfl

/-- Dot product, as in vek `Vec3::dot`. -/
def Vec3.dot (a b : Vec3) : ℝ := a.x * b.x + a.y * b.y + a.z * b.z

/-- Euclidean norm, as in vek `Vec3::magnitude`. -/
noncomputable def Vec3.magnitude (v : Vec3) : ℝ := Real.sqrt (v.dot v)

/-- Componentwise division by the magnitude, as in vek `Vec3::normalized`. -/
noncomputable def Vec3.normalized (v : Vec3) : Vec3 :=
  ⟨v.x / v.magnitude, v.y / v.magnitude, v.z / v.magnitude⟩

/-- Color with three real channels, modelling vek `Rgb<f64>`. -/
@[ext] structure Rgb where
  r : ℝ
  g : ℝ
  b : ℝ

instance : Add Rgb := ⟨fun a b => ⟨a.r + b.r, a.g + b.g, a.b + b.b⟩⟩

instance : HMul Rgb ℝ Rgb := ⟨fun c s => ⟨c.r * s, c.g * s, c.b * s⟩⟩

noncomputable instance : HDiv Rgb ℝ Rgb := ⟨fun c s => ⟨c.r / s, c.g / s, c.b / s⟩⟩

@[simp] lemma Rgb.add_r (a b : Rgb) : (a + b).r = a.r + b.r := rfl
@[simp] lemma Rgb.add_g (a b : Rgb) : (a + b).g = a.g + b.g := rfl
@[simp] lemma Rgb.add_b (a b : Rgb) : (a + b).b = a.b + b.b := rfl
@[simp] lemma Rgb.smul_r (c : Rgb) (s : ℝ) : (c * s).r = c.r * s := rfl
@[simp] lemma Rgb.smul_g (c : Rgb) (s : ℝ) : (c * s).g = c.g * s := rfl
@[simp] lemma Rgb.smul_b (c : Rgb) (s : ℝ) : (c * s).b = c.b * s := rfl
@[simp] lemma Rgb.div_r (c : Rgb) (s : ℝ) : (c / s).r = c.r / s := rfl
@[simp] lemma Rgb.div_g (c : Rgb) (s : ℝ) : (c / s).g = c.g / s := rfl
@[simp] lemma Rgb.div_b (c : Rgb) (s : ℝ) : (c / s).b = c.b / s := rfl

/-- White color, `Rgb::white()`. -/
def Rgb.white : Rgb := ⟨1, 1, 1⟩

/-- Black color, `Rgb::black()`. -/
def Rgb.black : Rgb := ⟨0, 0, 0⟩

/-- Four albedo weights; models the `[f64; 4]` array, `a0` standing for
index 0 (diffuse), `a1` for 1 (specular), `a2` for 2 (reflection), `a3`
for 3 (refraction). -/
structure Albedo where
  a0 : ℝ
  a1 : ℝ
  a2 : ℝ
  a3 : ℝ

/-- Surface material, as the `Material` struct of the source. -/
structure Material where
  refractive_index : ℝ
  albedo : Albedo
  diffuse_color : Rgb
  specular_exponent : ℝ

/-- The `Default` impl of `Material` in the source. -/
def Material.default : Material := ⟨1, ⟨1, 0, 0, 0⟩, Rgb.black, 0⟩

/-- The `Sphere` struct of the source. -/
structure Sphere where
  center : Vec3
  radius : ℝ
  material : Material

/-- The `Light` struct of the source. -/
structure Light where
  position : Vec3
  intensity : ℝ

/-- The `Ray` struct of the source. -/
structure Ray where
  origin : Vec3
  direction : Vec3

/-- Real model of `f64::MAX`. -/
noncomputable def fMAX : ℝ := (2 ^ 53 - 1) * 2 ^ 971

/-- Rust `f64::clamp(lo, hi)` on well ordered reals. -/
noncomputable def fclamp (x lo hi : ℝ) : ℝ := max lo (min x hi)

/-- Rust saturating cast `as isize` for f64: truncation toward zero, clamped
to the 64 bit signed range. -/
noncomputable def fTrunc (r : ℝ) : ℤ :=
  max (-(2 ^ 63)) (min (2 ^ 63 - 1) (if 0 ≤ r then ⌊r⌋ else ⌈r⌉))

/-- Ray and sphere intersection, `Sphere::intersect` in the source. -/
noncomputable def Sphere.intersect (s : Sphere) (ray : Ray) : Option ℝ :=
  let v_l := s.center - ray.origin
  let tca := v_l.dot ray.direction
  let d2 := v_l.dot v_l - tca * tca
  let radius2 := s.radius * s.radius
  if d2 > radius2 then none
  else
    let thc := Real.sqrt (radius2 - d2)
    let t0 := tca - thc
    let t1 := tca + thc
    if t1 < 0 then none
    else some (if t0 < 0 then t1 else t0)

/-- Mirror reflection, the `reflect` function of the source. -/
def reflect (v_in v_normal : Vec3) : Vec3 :=
  v_in - (2 : ℝ) * v_normal * (v_in.dot v_normal)

/-- Snell refraction, the `refract` function of the source.  The mutable
locals of the source (`cosi`, `etai`, `etat`, `n`) are modelled by selecting
their final values in the sign branch. -/
noncomputable def refract (v_in v_normal : Vec3) (refractive_index : ℝ) : Vec3 :=
  let cosi0 := -(fclamp (v_in.dot v_normal) (-1) 1)
  let s := if cosi0 < 0 then (-cosi0, refractive_index, (1 : ℝ), -v_normal)
           else (cosi0, (1 : ℝ), refractive_index, v_normal)
  let cosi := s.1
  let etai := s.2.1
  let etat := s.2.2.1
  let n := s.2.2.2
  let eta := etai / etat
  let k := 1 - eta * eta * (1 - cosi * cosi)
  if k < 0 then Vec3.zero
  else v_in * eta + n * (eta * cosi - Real.sqrt k)

/-- Epsilon offset of a ray origin, the `offset_point` function of the
source. -/
noncomputable def offset_point (point v_normal : Vec3) (dot_product : ℝ) : Vec3 :=
  if dot_product < 0 then point - v_normal * (0.001 : ℝ)
  else point + v_normal * (0.001 : ℝ)

/-- Accumulator state of the mutable sphere loop inside `Scene::intersect`:
current hit point, surface normal, material and `spheres_dist`. -/
structure HitState where
  hit : Vec3
  normal : Vec3
  material : Material
  dist : ℝ

/-- The sphere loop of `Scene::intersect`: scan all spheres, keeping the
nearest positive hit. -/
noncomputable def sphereFold (spheres : List Sphere) (ray : Ray) : HitState :=
  spheres.foldl
    (fun st sphere =>
      match sphere.intersect ray with
      | some dist_i =>
        if dist_i < st.dist then
          let hit := ray.origin + ray.direction * dist_i
          ⟨hit, (hit - sphere.center).normalized, sphere.material, dist_i⟩
        else st
      | none => st)
    ⟨Vec3.zero, Vec3.zero, Material.default, fMAX⟩

/-- Checkerboard shade at a plane hit point, from `Scene::intersect`:
two fixed shades selected by the last bit of the truncated half coordinates. -/
noncomputable def boardShade (hit : Vec3) : Rgb :=
  if (fTrunc (0.5 * hit.x + 1000) + fTrunc (0.5 * hit.z)) % 2 = 1 then ⟨0.3, 0.3, 0.3⟩
  else ⟨0.3, 0.2, 0.1⟩

/-- Plane intersection distance used by the checkerboard branch of
`Scene::intersect`. -/
noncomputable def boardD (ray : Ray) : ℝ := -(ray.origin.y + 4) / ray.direction.y

/-- Plane hit point used by the checkerboard branch of `Scene::intersect`. -/
noncomputable def boardPt (ray : Ray) : Vec3 :=
  ray.origin + ray.direction * boardD ray

/-- The scene intersector, `Scene::intersect` in the source: nearest sphere
hit, then the checkerboard plane test, then the distance cutoff at 1000. -/
noncomputable def scene_intersect (spheres : List Sphere) (ray : Ray) :
    Option (Vec3 × Vec3 × Material) :=
  let st := sphereFold spheres ray
  let res :=
    if |ray.direction.y| > 0.001 then
      let d := boardD ray
      let pt := boardPt ray
      if d > 0 ∧ |pt.x| < 10 ∧ pt.z < -10 ∧ pt.z > -30 ∧ d < st.dist then
        ((⟨pt, ⟨0, 1, 0⟩, { st.material with diffuse_color := boardShade pt }, st.dist⟩ :
          HitState), d)
      else (st, fMAX)
    else (st, fMAX)
  if min res.1.dist res.2 < 1000 then some (res.1.hit, res.1.normal, res.1.material)
  else none

/-- The recursive shader, `cast_ray` in the source.  Termination is by the
explicit depth guard: every recursive call is at `depth + 1` and only happens
when `depth` is at most 4. -/
noncomputable def cast_ray (spheres : List Sphere) (lights : List Light)
    (ray : Ray) (depth : ℕ) : Rgb × ℕ :=
  if _h : depth > 4 then (⟨0.2, 0.7, 0.8⟩, depth)
  else
    match scene_intersect spheres ray with
    | some (point, v_normal, material) =>
      let reflect_dir := (reflect ray.direction v_normal).normalized
      let refract_dir := (refract ray.direction v_normal material.refractive_index).normalized
      let reflect_orig := offset_point point v_normal (reflect_dir.dot v_normal)
      let refract_orig := offset_point point v_normal (refract_dir.dot v_normal)
      let reflect_color := (cast_ray spheres lights ⟨reflect_orig, reflect_dir⟩ (depth + 1)).1
      let refract_color := (cast_ray spheres lights ⟨refract_orig, refract_dir⟩ (depth + 1)).1
      let acc := lights.foldl
        (fun (acc : ℝ × ℝ) light =>
          let v_light := light.position - point
          let light_dir := v_light.normalized
          let light_distance := v_light.magnitude
          let shadow_orig := offset_point point v_normal (light_dir.dot v_normal)
          let upd : ℝ × ℝ :=
            (acc.1 + light.intensity * max (light_dir.dot v_normal) 0,
             acc.2 + max ((reflect light_dir v_normal).dot ray.direction) 0
                       ^ material.specular_exponent)
          match scene_intersect spheres ⟨shadow_orig, light_dir⟩ with
          | some (shadow_pt, _, _) =>
            if (shadow_pt - shadow_orig).magnitude < light_distance then acc else upd
          | none => upd)
        ((0 : ℝ), (0 : ℝ))
      (material.diffuse_color * acc.1 * material.albedo.a0
         + Rgb.white * acc.2 * material.albedo.a1
         + reflect_color * material.albedo.a2
         + refract_color * material.albedo.a3, depth)
    | none => (⟨0.2, 0.7, 0.8⟩, depth)
termination_by 5 - depth
decreasing_by
  all_goals omega

/-- Image width used by `render`. -/
def WIDTH : ℕ := 1024

/-- Image height used by `render`. -/
def HEIGHT : ℕ := 768

/-- The field of view constant of `render`: `FRAC_PI_2 as usize`, a cast of
the positive float pi over two to an unsigned integer, which truncates. -/
noncomputable def FOV : ℕ := ⌊Real.pi / 2⌋₊

/-- The aspect factor of `render`, width over height. -/
noncomputable def aspect : ℝ := (WIDTH : ℝ) / (HEIGHT : ℝ)

/-- The scale factor of `render`: tangent of half the (truncated) field of
view. -/
noncomputable def scale : ℝ := Real.tan ((FOV : ℝ) / 2)

/-- Horizontal camera coordinate of pixel column `i`, from `render`. -/
noncomputable def pixelX (i : ℕ) : ℝ :=
  (2 * ((i : ℝ) + 0.5) / (WIDTH : ℝ) - 1) * scale * aspect

/-- Vertical camera coordinate of pixel row `j`, from `render`. -/
noncomputable def pixelY (j : ℕ) : ℝ :=
  -(2 * ((j : ℝ) + 0.5) / (HEIGHT : ℝ) - 1) * scale

/-- Primary camera ray of pixel `(i, j)`, from `render`. -/
noncomputable def pixelRay (i j : ℕ) : Ray :=
  ⟨Vec3.zero, (⟨pixelX i, pixelY j, -1⟩ : Vec3).normalized⟩

/-- Framebuffer entry of pixel `(i, j)`: the color of the traced primary
ray at depth 0, from `render`. -/
noncomputable def render_pixel (spheres : List Sphere) (lights : List Light)
    (i j : ℕ) : Rgb :=
  (cast_ray spheres lights (pixelRay i j) 0).1

/-- Serialization of one framebuffer pixel, from the output loop of
`render`: fold of `max` over the channels seeded with 0, conditional
normalization by the maximum, then per channel clamp, scale by 255 and
truncating byte cast. -/
noncomputable def pixel_bytes (c : Rgb) : ℕ × ℕ × ℕ :=
  let m := max (max (max 0 c.r) c.g) c.b
  let p := if m > 1 then c / m else c
  (⌊255 * fclamp p.r 0 1⌋₊, ⌊255 * fclamp p.g 0 1⌋₊, ⌊255 * fclamp p.b 0 1⌋₊)

/-! ## Basic facts about the vector operations -/

lemma Vec3.dot_nonneg_self (v : Vec3) : 0 ≤ v.dot v := by
  simp only [Vec3.dot]
  nlinarith [mul_self_nonneg v.x, mul_self_nonneg v.y, mul_self_nonneg v.z]

lemma Vec3.dot_self_eq_one_of_magnitude (v : Vec3) (h : v.magnitude = 1) :
    v.x * v.x + v.y * v.y + v.z * v.z = 1 := by
  have h0 := Vec3.dot_nonneg_self v
  have h2 := Real.sq_sqrt h0
  rw [Vec3.magnitude] at h
  rw [h] at h2
  simpa [Vec3.dot] using h2.symm

/-- C2: for every ray, scene and light list, and every depth strictly greater
than 4, `cast_ray` returns exactly the background color (0.2, 0.7, 0.8),
regardless of scene content. -/
theorem cast_ray_depth_gt_four_background (spheres : List Sphere)
    (lights : List Light) (ray : Ray) (depth : ℕ) (h : depth > 4) :
    (cast_ray spheres lights ray depth).1 = ⟨0.2, 0.7, 0.8⟩ := by
  rw [cast_ray]
  simp [h]

/-- Witness for C2 at depth 5 on a concrete ray and the empty scene. -/
theorem cast_ray_depth_gt_four_background_witness :
    5 > 4 ∧ (cast_ray [] [] ⟨Vec3.zero, ⟨0, 0, -1⟩⟩ 5).1 = ⟨0.2, 0.7, 0.8⟩ :=
  ⟨by norm_num,
   cast_ray_depth_gt_four_background [] [] ⟨Vec3.zero, ⟨0, 0, -1⟩⟩ 5 (by norm_num)⟩

/-- C7: for every unit normal and every incident vector, the reflected
vector has the same magnitude as the incident one, and its dot product with
the normal is the negation of the incident dot product. -/
theorem reflect_law (v n : Vec3) (h : n.magnitude = 1) :
    (reflect v n).magnitude = v.magnitude ∧
      (reflect v n).dot n = -(v.dot n) := by
  have hn := Vec3.dot_self_eq_one_of_magnitude n h
  constructor
  · have hd : (reflect v n).dot (reflect v n) = v.dot v := by
      simp only [reflect, Vec3.dot, Vec3.sub_x, Vec3.sub_y, Vec3.sub_z,
        Vec3.lsmul_x, Vec3.lsmul_y, Vec3.lsmul_z, Vec3.smul_x, Vec3.smul_y,
        Vec3.smul_z]
      linear_combination (4 * (v.x * n.x + v.y * n.y + v.z * n.z) ^ 2) * hn
    simp only [Vec3.magnitude, hd]
  · simp only [reflect, Vec3.dot, Vec3.sub_x, Vec3.sub_y, Vec3.sub_z,
      Vec3.lsmul_x, Vec3.lsmul_y, Vec3.lsmul_z, Vec3.smul_x, Vec3.smul_y,
      Vec3.smul_z]
    linear_combination (-2 * (v.x * n.x + v.y * n.y + v.z * n.z)) * hn

/-- Witness for C7 with normal (0, 1, 0) and incident (1, -1, 0). -/
theorem reflect_law_witness :
    (⟨0, 1, 0⟩ : Vec3).magnitude = 1 ∧
      ((reflect ⟨1, -1, 0⟩ ⟨0, 1, 0⟩).magnitude = (⟨1, -1, 0⟩ : Vec3).magnitude ∧
        (reflect ⟨1, -1, 0⟩ ⟨0, 1, 0⟩).dot ⟨0, 1, 0⟩ =
          -((⟨1, -1, 0⟩ : Vec3).dot ⟨0, 1, 0⟩)) := by
  have hm : (⟨0, 1, 0⟩ : Vec3).magnitude = 1 := by
    simp [Vec3.magnitude, Vec3.dot]
  exact ⟨hm, reflect_law ⟨1, -1, 0⟩ ⟨0, 1, 0⟩ hm⟩

/-- C8: with refractive index 1 and a unit incident vector anti-parallel to
the unit normal, `refract` returns the incident vector unchanged. -/
theorem refract_no_bending (v n : Vec3) (hn : n.magnitude = 1) (hv : v = -n) :
    refract v n 1 = v := by
  have h1 := Vec3.dot_self_eq_one_of_magnitude n hn
  have hdot : v.dot n = -1 := by
    subst hv
    simp only [Vec3.dot, Vec3.neg_x, Vec3.neg_y, Vec3.neg_z]
    linarith
  have hclamp : fclamp (v.dot n) (-1) 1 = -1 := by
    rw [hdot, fclamp]
    norm_num
  simp only [refract, hclamp]
  norm_num [Real.sqrt_one]
  ext <;> simp

/-- Witness for C8 with normal (0, 0, 1) and incident (0, 0, -1). -/
theorem refract_no_bending_witness :
    (⟨0, 0, 1⟩ : Vec3).magnitude = 1 ∧
      (⟨0, 0, -1⟩ : Vec3) = -(⟨0, 0, 1⟩ : Vec3) ∧
      refract ⟨0, 0, -1⟩ ⟨0, 0, 1⟩ 1 = ⟨0, 0, -1⟩ := by
  have hm : (⟨0, 0, 1⟩ : Vec3).magnitude = 1 := by
    simp [Vec3.magnitude, Vec3.dot]
  have he : (⟨0, 0, -1⟩ : Vec3) = -(⟨0, 0, 1⟩ : Vec3) := by
    ext <;> simp
  exact ⟨hm, he, refract_no_bending ⟨0, 0, -1⟩ ⟨0, 0, 1⟩ hm he⟩

/-! ## Fuel indexed variant of the shader, for the termination claim -/

/-- Fuel indexed copy of `cast_ray`: structurally recursive on an explicit
fuel argument, returning the background color when the fuel runs out before
the depth guard fires. -/
noncomputable def cast_ray_fuel (spheres : List Sphere) (lights : List Light) :
    ℕ → Ray → ℕ → Rgb × ℕ
  | 0, _, depth => (⟨0.2, 0.7, 0.8⟩, depth)
  | fuel + 1, ray, depth =>
    if depth > 4 then (⟨0.2, 0.7, 0.8⟩, depth)
    else
      match scene_intersect spheres ray with
      | some (point, v_normal, material) =>
        let reflect_dir := (reflect ray.direction v_normal).normalized
        let refract_dir := (refract ray.direction v_normal material.refractive_index).normalized
        let reflect_orig := offset_point point v_normal (reflect_dir.dot v_normal)
        let refract_orig := offset_point point v_normal (refract_dir.dot v_normal)
        let reflect_color :=
          (cast_ray_fuel spheres lights fuel ⟨reflect_orig, reflect_dir⟩ (depth + 1)).1
        let refract_color :=
          (cast_ray_fuel spheres lights fuel ⟨refract_orig, refract_dir⟩ (depth + 1)).1
        let acc := lights.foldl
          (fun (acc : ℝ × ℝ) light =>
            let v_light := light.position - point
            let light_dir := v_light.normalized
            let light_distance := v_light.magnitude
            let shadow_orig := offset_point point v_normal (light_dir.dot v_normal)
            let upd : ℝ × ℝ :=
              (acc.1 + light.intensity * max (light_dir.dot v_normal) 0,
               acc.2 + max ((reflect light_dir v_normal).dot ray.direction) 0
                         ^ material.specular_exponent)
            match scene_intersect spheres ⟨shadow_orig, light_dir⟩ with
            | some (shadow_pt, _, _) =>
              if (shadow_pt - shadow_orig).magnitude < light_distance then acc else upd
            | none => upd)
          ((0 : ℝ), (0 : ℝ))
        (material.diffuse_color * acc.1 * material.albedo.a0
           + Rgb.white * acc.2 * material.albedo.a1
           + reflect_color * material.albedo.a2
           + refract_color * material.albedo.a3, depth)
      | none => (⟨0.2, 0.7, 0.8⟩, depth)

/-- C6: `cast_ray` terminates for every input, recursion happening only at
`depth + 1` below the guard: any fuel budget exceeding the remaining depth
headroom (5 levels from depth 0) makes the fuel indexed shader agree with
`cast_ray` exactly. -/
theorem cast_ray_terminates (spheres : List Sphere) (lights : List Light) :
    ∀ (fuel depth : ℕ), 5 < fuel + depth → ∀ ray : Ray,
      cast_ray_fuel spheres lights fuel ray depth = cast_ray spheres lights ray depth := by
  intro fuel
  induction fuel with
  | zero =>
    intro depth h ray
    have h4 : depth > 4 := by omega
    rw [cast_ray]
    simp [cast_ray_fuel, h4]
  | succ n ih =>
    intro depth h ray
    rw [cast_ray]
    by_cases h4 : depth > 4
    · simp [cast_ray_fuel, h4]
    · have ih2 : ∀ r : Ray, cast_ray_fuel spheres lights n r (depth + 1) =
          cast_ray spheres lights r (depth + 1) := fun r => ih (depth + 1) (by omega) r
      cases hsi : scene_intersect spheres ray with
      | none => simp [cast_ray_fuel, h4, hsi]
      | some v =>
        obtain ⟨point, v_normal, material⟩ := v
        simp only [cast_ray_fuel, h4, if_false, dif_neg, not_false_iff, hsi, ih2]

/-- Witness for C6: fuel 6 suffices for a primary ray at depth 0 in the
empty scene. -/
theorem cast_ray_terminates_witness :
    5 < 6 + 0 ∧
      cast_ray_fuel [] [] 6 ⟨Vec3.zero, ⟨0, 0, -1⟩⟩ 0 =
        cast_ray [] [] ⟨Vec3.zero, ⟨0, 0, -1⟩⟩ 0 :=
  ⟨by norm_num, cast_ray_terminates [] [] 6 0 (by norm_num) ⟨Vec3.zero, ⟨0, 0, -1⟩⟩⟩

/-! ## Tone mapping -/

/-- Modelled from the spec (section 6 output interface): tone mapping of one
pixel — if the maximum of the three channels exceeds 1, scale all three
channels down by that maximum, then clamp each channel to the unit interval,
scale by 255 and truncate to an integer. -/
noncomputable def spec_tone_map (c : Rgb) : ℕ × ℕ × ℕ :=
  let m := max c.r (max c.g c.b)
  let p : Rgb := if m > 1 then ⟨c.r / m, c.g / m, c.b / m⟩ else c
  (⌊255 * fclamp p.r 0 1⌋₊, ⌊255 * fclamp p.g 0 1⌋₊, ⌊255 * fclamp p.b 0 1⌋₊)

lemma nat_floor_eval {a : ℝ} {n : ℕ} (h1 : (n : ℝ) ≤ a) (h2 : a < n + 1) :
    ⌊a⌋₊ = n :=
  (Nat.floor_eq_iff (le_trans (Nat.cast_nonneg n) h1)).mpr ⟨h1, h2⟩

/-- C9: per pixel serialization equals the tone mapping the spec describes
(max normalization when a channel exceeds 1, clamp, scale by 255,
truncation), and the color (2, 1, 0.5) serializes to (255, 127, 63). -/
theorem tone_map_spec_correct :
    (∀ c : Rgb, pixel_bytes c = spec_tone_map c) ∧
      pixel_bytes ⟨2, 1, 0.5⟩ = (255, 127, 63) := by
  constructor
  · intro c
    have hmx : max (max (max 0 c.r) c.g) c.b = max 0 (max c.r (max c.g c.b)) := by
      rw [max_assoc, max_assoc]
    by_cases h1 : max c.r (max c.g c.b) > 1
    · have hpos : max 0 (max c.r (max c.g c.b)) = max c.r (max c.g c.b) :=
        max_eq_right (le_of_lt (lt_trans one_pos h1))
      simp only [pixel_bytes, spec_tone_map, hmx, hpos, if_pos h1]
      rfl
    · have h2 : ¬ max 0 (max c.r (max c.g c.b)) > 1 := by
        rw [gt_iff_lt, lt_max_iff]
        push_neg
        exact ⟨by norm_num, not_lt.mp h1⟩
      simp only [pixel_bytes, spec_tone_map, hmx, if_neg h1, if_neg h2]
  · have hm : max (max (max (0 : ℝ) 2) 1) 0.5 = 2 := by
      norm_num [max_def]
    simp only [pixel_bytes, hm]
    rw [if_pos (by norm_num : (2 : ℝ) > 1)]
    have hr : (255 : ℝ) * fclamp ((⟨2, 1, 0.5⟩ : Rgb).r / 2) 0 1 = 255 := by
      simp only [fclamp]
      norm_num [min_def, max_def]
    have hg : (255 : ℝ) * fclamp ((⟨2, 1, 0.5⟩ : Rgb).g / 2) 0 1 = 127.5 := by
      simp only [fclamp]
      norm_num [min_def, max_def]
    have hb : (255 : ℝ) * fclamp ((⟨2, 1, 0.5⟩ : Rgb).b / 2) 0 1 = 63.75 := by
      simp only [fclamp]
      norm_num [min_def, max_def]
    simp only [Rgb.div_r, Rgb.div_g, Rgb.div_b] at hr hg hb ⊢
    rw [hr, hg, hb]
    refine Prod.ext ?_ (Prod.ext ?_ ?_) <;> simp only []
    · exact nat_floor_eval (by norm_num) (by norm_num)
    · exact nat_floor_eval (by norm_num) (by norm_num)
    · exact nat_floor_eval (by norm_num) (by norm_num)

/-! ## The truncated field of view -/

lemma tan_half_bounds :
    (0.5418 : ℝ) < Real.tan (1 / 2) ∧ Real.tan (1 / 2) < 0.5535 := by
  have habs : |(1 / 2 : ℝ)| = 1 / 2 := abs_of_pos (by norm_num)
  have h1 : |(1 / 2 : ℝ)| ≤ 1 := by rw [habs]; norm_num
  have hs := Real.sin_bound h1
  have hc := Real.cos_bound h1
  rw [habs] at hs hc
  rw [abs_le] at hs hc
  have hsin_lb : (0.4759 : ℝ) ≤ Real.sin (1 / 2) := by nlinarith [hs.1]
  have hsin_ub : Real.sin (1 / 2) ≤ 0.48243 := by nlinarith [hs.2]
  have hcos_lb : (0.8717 : ℝ) ≤ Real.cos (1 / 2) := by nlinarith [hc.1]
  have hcos_ub : Real.cos (1 / 2) ≤ 0.87826 := by nlinarith [hc.2]
  have hcpos : (0 : ℝ) < Real.cos (1 / 2) := by linarith
  have ht := Real.tan_eq_sin_div_cos (1 / 2)
  constructor
  · rw [ht, lt_div_iff₀ hcpos]
    nlinarith
  · rw [ht, div_lt_iff₀ hcpos]
    nlinarith

lemma FOV_eq_one : FOV = 1 := by
  have hpi3 := Real.pi_gt_three
  have hpi4 := Real.pi_lt_four
  rw [FOV, Nat.floor_eq_iff (by linarith)]
  constructor
  · push_cast
    linarith
  · push_cast
    linarith

lemma scale_eq_tan_half : scale = Real.tan (1 / 2) := by
  rw [scale, FOV_eq_one]
  norm_num

/-- C10: the field of view constant pi over two is truncated to 1 by the
usize cast, so the scale factor used for every primary ray is tan(1/2),
about 0.546 and different from tan(pi/4); every pixel coordinate is scaled
by this truncated value. -/
theorem fov_truncated_scale :
    FOV = 1 ∧ scale = Real.tan (1 / 2) ∧
      (0.54 : ℝ) < scale ∧ scale < 0.56 ∧ scale < Real.tan (Real.pi / 4) ∧
      (∀ i : ℕ,
        pixelX i = (2 * ((i : ℝ) + 0.5) / 1024 - 1) * Real.tan (1 / 2) * (4 / 3)) ∧
      (∀ j : ℕ,
        pixelY j = -(2 * ((j : ℝ) + 0.5) / 768 - 1) * Real.tan (1 / 2)) := by
  have hb := tan_half_bounds
  have hsc := scale_eq_tan_half
  have haspect : aspect = 4 / 3 := by
    rw [aspect]
    norm_num [WIDTH, HEIGHT]
  refine ⟨FOV_eq_one, hsc, ?_, ?_, ?_, ?_, ?_⟩
  · rw [hsc]; linarith [hb.1]
  · rw [hsc]; linarith [hb.2]
  · rw [hsc]
    refine Real.tan_lt_tan_of_nonneg_of_lt_pi_div_two (by norm_num) ?_ ?_
    · linarith [Real.pi_gt_three]
    · linarith [Real.pi_gt_three]
  · intro i
    rw [pixelX, hsc, haspect]
    norm_num [WIDTH]
  · intro j
    rw [pixelY, hsc]
    norm_num [HEIGHT]

/-! ## Sphere intersection -/

lemma dist_sq_along (o c dir : Vec3) (t : ℝ) (hdd : dir.dot dir = 1) :
    (o + dir * t - c).dot (o + dir * t - c) =
      t ^ 2 - 2 * t * ((c - o).dot dir) + (c - o).dot (c - o) := by
  simp only [Vec3.dot, Vec3.add_x, Vec3.add_y, Vec3.add_z, Vec3.sub_x, Vec3.sub_y,
    Vec3.sub_z, Vec3.smul_x, Vec3.smul_y, Vec3.smul_z] at hdd ⊢
  linear_combination (t ^ 2) * hdd

lemma sqrt_le_iff_sq (q r : ℝ) (hq : 0 ≤ q) (hr : 0 ≤ r) :
    Real.sqrt q ≤ r ↔ q ≤ r * r := by
  constructor
  · intro h
    have h2 := Real.sq_sqrt hq
    nlinarith [Real.sqrt_nonneg q]
  · intro h
    have h2 := Real.sqrt_le_sqrt (show q ≤ r ^ 2 by nlinarith)
    rwa [Real.sqrt_sq hr] at h2

/-- C1: for a unit direction ray with origin strictly outside the sphere,
`Sphere::intersect` returns a hit exactly when the forward ray passes within
`radius` of the center, and any returned distance lands exactly on the
sphere surface. -/
theorem sphere_intersect_spec (s : Sphere) (ray : Ray)
    (hdir : ray.direction.magnitude = 1) (hrad : 0 < s.radius)
    (hout : s.radius < (ray.origin - s.center).magnitude) :
    ((∃ d, s.intersect ray = some d) ↔
      ∃ t : ℝ, 0 ≤ t ∧ (ray.origin + ray.direction * t - s.center).magnitude ≤ s.radius) ∧
    ∀ d, s.intersect ray = some d →
      (ray.origin + ray.direction * d - s.center).magnitude = s.radius := by
  have hdd : ray.direction.dot ray.direction = 1 := by
    have h := Vec3.dot_self_eq_one_of_magnitude ray.direction hdir
    simpa [Vec3.dot] using h
  set tca := (s.center - ray.origin).dot ray.direction with htca
  set LL := (s.center - ray.origin).dot (s.center - ray.origin) with hLL
  set r2 := s.radius * s.radius with hr2
  set d2 := LL - tca * tca with hd2
  set thc := Real.sqrt (r2 - d2) with hthc
  have hinter : s.intersect ray =
      if d2 > r2 then none
      else if tca + thc < 0 then none
      else some (if tca - thc < 0 then tca + thc else tca - thc) := rfl
  have hout2 : r2 < LL := by
    have h0 := Vec3.dot_nonneg_self (ray.origin - s.center)
    have h1 : (ray.origin - s.center).dot (ray.origin - s.center) = LL := by
      rw [hLL]
      simp only [Vec3.dot, Vec3.sub_x, Vec3.sub_y, Vec3.sub_z]
      ring
    rw [Vec3.magnitude] at hout
    have h2 := (sqrt_le_iff_sq _ _ h0 (le_of_lt hrad)).mpr
    by_contra hcon
    push_neg at hcon
    have h3 : Real.sqrt ((ray.origin - s.center).dot (ray.origin - s.center)) ≤ s.radius :=
      h2 (by rw [h1]; linarith)
    linarith
  have hmagle : ∀ t : ℝ,
      ((ray.origin + ray.direction * t - s.center).magnitude ≤ s.radius ↔
        t ^ 2 - 2 * t * tca + LL ≤ r2) := by
    intro t
    have h0 := Vec3.dot_nonneg_self (ray.origin + ray.direction * t - s.center)
    rw [dist_sq_along ray.origin s.center ray.direction t hdd, ← htca, ← hLL] at h0
    rw [Vec3.magnitude, dist_sq_along ray.origin s.center ray.direction t hdd, ← htca, ← hLL]
    exact sqrt_le_iff_sq _ _ h0 (le_of_lt hrad)
  constructor
  · rw [hinter]
    by_cases hgt : d2 > r2
    · rw [if_pos hgt]
      constructor
      · rintro ⟨d, hd⟩
        exact absurd hd (by simp)
      · rintro ⟨t, ht0, htle⟩
        exfalso
        rw [hmagle t] at htle
        nlinarith [sq_nonneg (t - tca)]
    · have hd2le : d2 ≤ r2 := not_lt.mp hgt
      have hthc2 : thc ^ 2 = r2 - d2 := Real.sq_sqrt (by linarith)
      have hthc0 : (0 : ℝ) ≤ thc := Real.sqrt_nonneg _
      rw [if_neg hgt]
      by_cases hneg : tca + thc < 0
      · rw [if_pos hneg]
        constructor
        · rintro ⟨d, hd⟩
          exact absurd hd (by simp)
        · rintro ⟨t, ht0, htle⟩
          exfalso
          rw [hmagle t] at htle
          have htca : tca < 0 := by nlinarith
          nlinarith [sq_nonneg t, mul_nonneg ht0 (neg_nonneg.mpr (le_of_lt htca))]
      · rw [if_neg hneg]
        constructor
        · intro _
          have htcapos : 0 < tca := by
            by_contra hle
            push_neg at hle
            have : tca + thc < 0 := by nlinarith
            exact hneg this
          refine ⟨tca, le_of_lt htcapos, ?_⟩
          rw [hmagle tca]
          nlinarith
        · intro _
          exact ⟨_, rfl⟩
  · intro d hd
    rw [hinter] at hd
    by_cases hgt : d2 > r2
    · rw [if_pos hgt] at hd
      exact absurd hd (by simp)
    · have hd2le : d2 ≤ r2 := not_lt.mp hgt
      have hthc2 : thc ^ 2 = r2 - d2 := Real.sq_sqrt (by linarith)
      rw [if_neg hgt] at hd
      by_cases hneg : tca + thc < 0
      · rw [if_pos hneg] at hd
        exact absurd hd (by simp)
      · rw [if_neg hneg] at hd
        have hd' : d = if tca - thc < 0 then tca + thc else tca - thc :=
          (Option.some_inj.mp hd).symm
        have hq : (ray.origin + ray.direction * d - s.center).dot
            (ray.origin + ray.direction * d - s.center) = r2 := by
          rw [dist_sq_along ray.origin s.center ray.direction d hdd, ← htca, ← hLL, hd']
          split_ifs with hlt
          · linear_combination hthc2 - hd2
          · linear_combination hthc2 - hd2
        rw [Vec3.magnitude, hq, hr2,
          show s.radius * s.radius = s.radius ^ 2 by ring,
          Real.sqrt_sq (le_of_lt hrad)]

/-- Concrete sphere used in witnesses: center (0, 0, -5), radius 1. -/
def sphereC1 : Sphere := ⟨⟨0, 0, -5⟩, 1, Material.default⟩

/-- Concrete ray used in witnesses: origin 0, direction (0, 0, -1). -/
def rayC1 : Ray := ⟨⟨0, 0, 0⟩, ⟨0, 0, -1⟩⟩

/-- Witness for C1 on a concrete axis aligned sphere and ray. -/
theorem sphere_intersect_spec_witness :
    rayC1.direction.magnitude = 1 ∧ 0 < sphereC1.radius ∧
      sphereC1.radius < (rayC1.origin - sphereC1.center).magnitude ∧
      (((∃ d, sphereC1.intersect rayC1 = some d) ↔
        ∃ t : ℝ, 0 ≤ t ∧
          (rayC1.origin + rayC1.direction * t - sphereC1.center).magnitude ≤
            sphereC1.radius) ∧
       ∀ d, sphereC1.intersect rayC1 = some d →
         (rayC1.origin + rayC1.direction * d - sphereC1.center).magnitude =
           sphereC1.radius) := by
  have h1 : rayC1.direction.magnitude = 1 := by
    simp [rayC1, Vec3.magnitude, Vec3.dot]
  have h2 : (0 : ℝ) < sphereC1.radius := by norm_num [sphereC1]
  have h3 : sphereC1.radius < (rayC1.origin - sphereC1.center).magnitude := by
    have h5 : (rayC1.origin - sphereC1.center).dot (rayC1.origin - sphereC1.center) = 25 := by
      simp only [rayC1, sphereC1, Vec3.dot, Vec3.sub_x, Vec3.sub_y, Vec3.sub_z]
      norm_num
    have h4 : (rayC1.origin - sphereC1.center).magnitude = 5 := by
      rw [Vec3.magnitude, h5, show (25 : ℝ) = 5 ^ 2 by norm_num,
        Real.sqrt_sq (by norm_num : (0 : ℝ) ≤ 5)]
    rw [h4]
    norm_num [sphereC1]
  exact ⟨h1, h2, h3, sphere_intersect_spec sphereC1 rayC1 h1 h2 h3⟩

/-! ## Characterizing the scene intersector -/

lemma fMAX_ge_1000 : (1000 : ℝ) ≤ fMAX := by
  rw [fMAX]
  norm_num

lemma sphereFold_nil (ray : Ray) :
    sphereFold [] ray = ⟨Vec3.zero, Vec3.zero, Material.default, fMAX⟩ := rfl

/-- When the checkerboard branch fires (plane nearer than every sphere hit
and inside the bounded board region), the scene intersector returns the
plane hit with the sphere loop material, only its diffuse color replaced. -/
lemma scene_intersect_plane (spheres : List Sphere) (ray : Ray)
    (h1 : |ray.direction.y| > 0.001) (h2 : boardD ray > 0)
    (h3 : |(boardPt ray).x| < 10) (h4 : (boardPt ray).z < -10)
    (h5 : (boardPt ray).z > -30) (h6 : boardD ray < (sphereFold spheres ray).dist)
    (h7 : boardD ray < 1000) :
    scene_intersect spheres ray =
      some (boardPt ray, ⟨0, 1, 0⟩,
        { (sphereFold spheres ray).material with
            diffuse_color := boardShade (boardPt ray) }) := by
  have hin : boardD ray > 0 ∧ |(boardPt ray).x| < 10 ∧ (boardPt ray).z < -10 ∧
      (boardPt ray).z > -30 ∧ boardD ray < (sphereFold spheres ray).dist :=
    ⟨h2, h3, h4, h5, h6⟩
  have hmin : min (sphereFold spheres ray).dist (boardD ray) < 1000 :=
    lt_of_le_of_lt (min_le_right _ _) h7
  simp only [scene_intersect]
  rw [if_pos h1, if_pos hin]
  exact if_pos hmin

/-- The full checkerboard hit condition for a ray in the empty scene. -/
def boardCond (ray : Ray) : Prop :=
  |ray.direction.y| > 0.001 ∧ boardD ray > 0 ∧ |(boardPt ray).x| < 10 ∧
    (boardPt ray).z < -10 ∧ (boardPt ray).z > -30 ∧ boardD ray < fMAX ∧
    boardD ray < 1000

lemma scene_intersect_nil_hit (ray : Ray) (h : boardCond ray) :
    scene_intersect [] ray =
      some (boardPt ray, ⟨0, 1, 0⟩,
        { Material.default with diffuse_color := boardShade (boardPt ray) }) := by
  obtain ⟨h1, h2, h3, h4, h5, h6, h7⟩ := h
  exact scene_intersect_plane [] ray h1 h2 h3 h4 h5 h6 h7

lemma scene_intersect_nil_miss (ray : Ray) (h : ¬ boardCond ray) :
    scene_intersect [] ray = none := by
  have hMM : ¬ min fMAX fMAX < 1000 := by
    rw [min_self]
    exact not_lt.mpr fMAX_ge_1000
  by_cases h1 : |ray.direction.y| > 0.001
  · by_cases hin : boardD ray > 0 ∧ |(boardPt ray).x| < 10 ∧ (boardPt ray).z < -10 ∧
        (boardPt ray).z > -30 ∧ boardD ray < (sphereFold [] ray).dist
    · have h7 : ¬ boardD ray < 1000 := by
        intro h7
        exact h ⟨h1, hin.1, hin.2.1, hin.2.2.1, hin.2.2.2.1, hin.2.2.2.2, h7⟩
      have hnot : ¬ min fMAX (boardD ray) < 1000 := by
        rw [min_lt_iff]
        rintro (hc | hc)
        · exact absurd hc (not_lt.mpr fMAX_ge_1000)
        · exact h7 hc
      simp only [scene_intersect]
      rw [if_pos h1, if_pos hin]
      exact if_neg hnot
    · simp only [scene_intersect]
      rw [if_pos h1, if_neg hin]
      exact if_neg hMM
  · simp only [scene_intersect]
    rw [if_neg h1]
    exact if_neg hMM

/-! ## The empty scene -/

lemma cast_ray_nil_hit (ray : Ray) (h : boardCond ray) :
    (cast_ray [] [] ray 0).1 = ⟨0, 0, 0⟩ := by
  rw [cast_ray]
  rw [dif_neg (by norm_num : ¬ (0 : ℕ) > 4)]
  rw [scene_intersect_nil_hit ray h]
  simp only [List.foldl_nil, Material.default]
  ext <;> simp

lemma cast_ray_nil_miss (ray : Ray) (h : ¬ boardCond ray) :
    (cast_ray [] [] ray 0).1 = ⟨0.2, 0.7, 0.8⟩ := by
  rw [cast_ray]
  rw [dif_neg (by norm_num : ¬ (0 : ℕ) > 4)]
  rw [scene_intersect_nil_miss ray h]

lemma pixel_bytes_black : pixel_bytes ⟨0, 0, 0⟩ = (0, 0, 0) := by
  simp only [pixel_bytes]
  norm_num [fclamp, min_def, max_def]

lemma pixel_bytes_bg : pixel_bytes ⟨0.2, 0.7, 0.8⟩ = (51, 178, 204) := by
  have hm : max (max (max (0 : ℝ) 0.2) 0.7) 0.8 = 0.8 := by
    norm_num [max_def]
  simp only [pixel_bytes, hm]
  rw [if_neg (by norm_num : ¬ (0.8 : ℝ) > 1)]
  have hr : (255 : ℝ) * fclamp (⟨0.2, 0.7, 0.8⟩ : Rgb).r 0 1 = 51 := by
    simp only [fclamp]
    norm_num [min_def, max_def]
  have hg : (255 : ℝ) * fclamp (⟨0.2, 0.7, 0.8⟩ : Rgb).g 0 1 = 178.5 := by
    simp only [fclamp]
    norm_num [min_def, max_def]
  have hb : (255 : ℝ) * fclamp (⟨0.2, 0.7, 0.8⟩ : Rgb).b 0 1 = 204 := by
    simp only [fclamp]
    norm_num [min_def, max_def]
  rw [hr, hg, hb]
  refine Prod.ext ?_ (Prod.ext ?_ ?_) <;> simp only []
  · exact nat_floor_eval (by norm_num) (by norm_num)
  · exact nat_floor_eval (by norm_num) (by norm_num)
  · exact nat_floor_eval (by norm_num) (by norm_num)

/-- C3 amended: with zero spheres and zero lights, every frame pixel whose
primary ray hits the checkerboard plane region serializes to (0, 0, 0) — the
plane is shaded black since there is no light — and every other pixel
serializes to the background bytes (51, 178, 204). -/
theorem render_empty_amended (i j : ℕ) (_hi : i < 1024) (_hj : j < 768) :
    (boardCond (pixelRay i j) → pixel_bytes (render_pixel [] [] i j) = (0, 0, 0)) ∧
    (¬ boardCond (pixelRay i j) →
      pixel_bytes (render_pixel [] [] i j) = (51, 178, 204)) := by
  constructor
  · intro h
    rw [render_pixel, cast_ray_nil_hit _ h, pixel_bytes_black]
  · intro h
    rw [render_pixel, cast_ray_nil_miss _ h, pixel_bytes_bg]

/-- Witness for the amended C3 at pixel (0, 0). -/
theorem render_empty_amended_witness :
    (0 : ℕ) < 1024 ∧ (0 : ℕ) < 768 ∧
      ((boardCond (pixelRay 0 0) → pixel_bytes (render_pixel [] [] 0 0) = (0, 0, 0)) ∧
       (¬ boardCond (pixelRay 0 0) →
         pixel_bytes (render_pixel [] [] 0 0) = (51, 178, 204))) :=
  ⟨by norm_num, by norm_num, render_empty_amended 0 0 (by norm_num) (by norm_num)⟩

/-! ## Truncation arithmetic -/

lemma fTrunc_intCast (n : ℤ) (h1 : -(2 ^ 63) ≤ n) (h2 : n ≤ 2 ^ 63 - 1) :
    fTrunc ((n : ℤ) : ℝ) = n := by
  have hfl : ⌊((n : ℤ) : ℝ)⌋ = n := Int.floor_intCast n
  have hcl : ⌈((n : ℤ) : ℝ)⌉ = n := Int.ceil_intCast n
  simp only [fTrunc]
  split_ifs with h
  · rw [hfl, min_eq_right h2, max_eq_right h1]
  · rw [hcl, min_eq_right h2, max_eq_right h1]

lemma fTrunc_neg_nine_half : fTrunc (-9.5) = -9 := by
  have h : ¬ (0 : ℝ) ≤ -9.5 := by norm_num
  have hcl : ⌈(-9.5 : ℝ)⌉ = -9 := by
    rw [Int.ceil_eq_iff]
    constructor <;> norm_num
  simp only [fTrunc, if_neg h, hcl]
  norm_num [min_def, max_def]

/-- Once the plane hit point is inside the board region, the x term of the
checkerboard parity computation reduces to a plain floor shifted by the even
constant 1000. -/
lemma fTrunc_add_thousand (x : ℝ) (hx : |x| < 10) :
    fTrunc (0.5 * x + 1000) = ⌊(0.5 : ℝ) * x⌋ + 1000 := by
  obtain ⟨hxl, hxu⟩ := abs_lt.mp hx
  have h1 : (0 : ℝ) ≤ 0.5 * x + 1000 := by linarith
  have h2 : ⌊(0.5 : ℝ) * x + 1000⌋ = ⌊(0.5 : ℝ) * x⌋ + 1000 := by
    rw [show (1000 : ℝ) = ((1000 : ℤ) : ℝ) by norm_num, Int.floor_add_int]
  have hlb : -5 ≤ ⌊(0.5 : ℝ) * x⌋ := Int.le_floor.mpr (by push_cast; linarith)
  have hub : ⌊(0.5 : ℝ) * x⌋ < 5 := Int.floor_lt.mpr (by push_cast; linarith)
  simp only [fTrunc, if_pos h1, h2]
  rw [min_eq_right (by omega), max_eq_right (by omega)]

/-! ## Concrete vertical rays hitting the board -/

lemma boardD_vertical (z0 : ℝ) : boardD ⟨⟨0, 0, z0⟩, ⟨0, -1, 0⟩⟩ = 4 := by
  show -((0 : ℝ) + 4) / (-1) = 4
  norm_num

lemma boardPt_vertical (z0 : ℝ) :
    boardPt ⟨⟨0, 0, z0⟩, ⟨0, -1, 0⟩⟩ = ⟨0, -4, z0⟩ := by
  simp only [boardPt, boardD_vertical]
  ext <;> simp

lemma boardCond_vertical (z0 : ℝ) (ha : z0 < -10) (hb : -30 < z0) :
    boardCond ⟨⟨0, 0, z0⟩, ⟨0, -1, 0⟩⟩ := by
  refine ⟨?_, ?_, ?_, ?_, ?_, ?_, ?_⟩
  · show |(-1 : ℝ)| > 0.001
    rw [abs_neg, abs_one]
    norm_num
  · rw [boardD_vertical]
    norm_num
  · rw [boardPt_vertical]
    show |(0 : ℝ)| < 10
    simp
  · rw [boardPt_vertical]
    exact ha
  · rw [boardPt_vertical]
    exact hb
  · rw [boardD_vertical]
    linarith [fMAX_ge_1000]
  · rw [boardD_vertical]
    norm_num

lemma scene_intersect_vertical (z0 : ℝ) (ha : z0 < -10) (hb : -30 < z0) :
    scene_intersect [] ⟨⟨0, 0, z0⟩, ⟨0, -1, 0⟩⟩ =
      some (⟨0, -4, z0⟩, ⟨0, 1, 0⟩,
        { Material.default with diffuse_color := boardShade ⟨0, -4, z0⟩ }) := by
  rw [scene_intersect_nil_hit _ (boardCond_vertical z0 ha hb), boardPt_vertical]

lemma boardShade_m19 : boardShade ⟨0, -4, -19⟩ = ⟨0.3, 0.3, 0.3⟩ := by
  simp only [boardShade]
  have h1 : fTrunc (0.5 * (⟨0, -4, -19⟩ : Vec3).x + 1000) = 1000 := by
    rw [show (0.5 : ℝ) * (⟨0, -4, -19⟩ : Vec3).x + 1000 = ((1000 : ℤ) : ℝ) by norm_num]
    exact fTrunc_intCast 1000 (by norm_num) (by norm_num)
  have h2 : fTrunc (0.5 * (⟨0, -4, -19⟩ : Vec3).z) = -9 := by
    rw [show (0.5 : ℝ) * (⟨0, -4, -19⟩ : Vec3).z = -9.5 by norm_num]
    exact fTrunc_neg_nine_half
  rw [h1, h2, if_pos (by decide)]

lemma boardShade_m12 : boardShade ⟨0, -4, -12⟩ = ⟨0.3, 0.2, 0.1⟩ := by
  simp only [boardShade]
  have h1 : fTrunc (0.5 * (⟨0, -4, -12⟩ : Vec3).x + 1000) = 1000 := by
    rw [show (0.5 : ℝ) * (⟨0, -4, -12⟩ : Vec3).x + 1000 = ((1000 : ℤ) : ℝ) by norm_num]
    exact fTrunc_intCast 1000 (by norm_num) (by norm_num)
  have h2 : fTrunc (0.5 * (⟨0, -4, -12⟩ : Vec3).z) = -6 := by
    rw [show (0.5 : ℝ) * (⟨0, -4, -12⟩ : Vec3).z = ((-6 : ℤ) : ℝ) by norm_num]
    exact fTrunc_intCast (-6) (by norm_num) (by norm_num)
  rw [h1, h2, if_neg (by decide)]

lemma boardShade_m20 : boardShade ⟨0, -4, -20⟩ = ⟨0.3, 0.2, 0.1⟩ := by
  simp only [boardShade]
  have h1 : fTrunc (0.5 * (⟨0, -4, -20⟩ : Vec3).x + 1000) = 1000 := by
    rw [show (0.5 : ℝ) * (⟨0, -4, -20⟩ : Vec3).x + 1000 = ((1000 : ℤ) : ℝ) by norm_num]
    exact fTrunc_intCast 1000 (by norm_num) (by norm_num)
  have h2 : fTrunc (0.5 * (⟨0, -4, -20⟩ : Vec3).z) = -10 := by
    rw [show (0.5 : ℝ) * (⟨0, -4, -20⟩ : Vec3).z = ((-10 : ℤ) : ℝ) by norm_num]
    exact fTrunc_intCast (-10) (by norm_num) (by norm_num)
  rw [h1, h2, if_neg (by decide)]

/-! ## C4 and C5 -/

/-- Concrete sphere behind the board plane, with a distinctly non default
material. -/
def sphereC4 : Sphere :=
  ⟨⟨0, -10, -20⟩, 1, ⟨1.5, ⟨0.5, 0.5, 0.5, 0.5⟩, ⟨0.5, 0.5, 0.5⟩, 10⟩⟩

/-- Downward ray through the board at z = -20, then through `sphereC4`. -/
def rayC4 : Ray := ⟨⟨0, 0, -20⟩, ⟨0, -1, 0⟩⟩

lemma sphereC4_intersect : Sphere.intersect sphereC4 rayC4 = some 9 := by
  simp only [Sphere.intersect, sphereC4, rayC4, Vec3.dot, Vec3.sub_x, Vec3.sub_y,
    Vec3.sub_z]
  norm_num [Real.sqrt_one]

lemma normalized_unit_y : (⟨0, 1, 0⟩ : Vec3).normalized = ⟨0, 1, 0⟩ := by
  have hm : (⟨0, 1, 0⟩ : Vec3).magnitude = 1 := by
    simp [Vec3.magnitude, Vec3.dot]
  simp [Vec3.normalized, hm]

lemma sphereFold_C4 : sphereFold [sphereC4] rayC4 =
    ⟨⟨0, -9, -20⟩, ⟨0, 1, 0⟩, sphereC4.material, 9⟩ := by
  have h9 : (9 : ℝ) < fMAX := lt_of_lt_of_le (by norm_num) fMAX_ge_1000
  simp only [sphereFold, List.foldl_cons, List.foldl_nil, sphereC4_intersect]
  rw [if_pos h9]
  have hhit : rayC4.origin + rayC4.direction * (9 : ℝ) = ⟨0, -9, -20⟩ := by
    simp only [rayC4]
    ext <;> simp
  rw [hhit]
  have hdiff : (⟨0, -9, -20⟩ : Vec3) - sphereC4.center = ⟨0, 1, 0⟩ := by
    simp only [sphereC4]
    ext <;> norm_num
  rw [hdiff, normalized_unit_y]

/-- C4 counterexample: the board plane is the nearest hit of `rayC4` (at
distance 4, the sphere hit is at distance 9), yet the returned material
carries the albedo of `sphereC4`, not the default albedo (1, 0, 0, 0) the
claim asserts. -/
theorem plane_material_counterexample :
    boardD rayC4 < (sphereFold [sphereC4] rayC4).dist ∧
      scene_intersect [sphereC4] rayC4 =
        some (⟨0, -4, -20⟩, ⟨0, 1, 0⟩,
          ⟨1.5, ⟨0.5, 0.5, 0.5, 0.5⟩, ⟨0.3, 0.2, 0.1⟩, 10⟩) ∧
      (⟨0.5, 0.5, 0.5, 0.5⟩ : Albedo) ≠ ⟨1, 0, 0, 0⟩ := by
  have hd4 : boardD rayC4 = 4 := boardD_vertical (-20)
  have hpt : boardPt rayC4 = ⟨0, -4, -20⟩ := boardPt_vertical (-20)
  have hdlt : boardD rayC4 < (sphereFold [sphereC4] rayC4).dist := by
    rw [sphereFold_C4, hd4]
    norm_num
  refine ⟨hdlt, ?_, ?_⟩
  · have h := scene_intersect_plane [sphereC4] rayC4
      (by show |(-1 : ℝ)| > 0.001; rw [abs_neg, abs_one]; norm_num)
      (by rw [hd4]; norm_num)
      (by rw [hpt]; show |(0 : ℝ)| < 10; simp)
      (by rw [hpt]; show (-20 : ℝ) < -10; norm_num)
      (by rw [hpt]; show (-20 : ℝ) > -30; norm_num)
      hdlt
      (by rw [hd4]; norm_num)
    rw [h, sphereFold_C4, hpt, boardShade_m20]
    rfl
  · intro hco
    have h05 := congrArg Albedo.a0 hco
    norm_num at h05

/-- C4 amended: whenever the nearest hit is the checkerboard plane, the
returned material is the sphere loop material — the nearest sphere material
if some sphere is hit (at a greater distance), the default material
otherwise — with only the diffuse color replaced by the checkerboard
shade. -/
theorem plane_material_amended (spheres : List Sphere) (ray : Ray)
    (h1 : |ray.direction.y| > 0.001) (h2 : boardD ray > 0)
    (h3 : |(boardPt ray).x| < 10) (h4 : (boardPt ray).z < -10)
    (h5 : (boardPt ray).z > -30) (h6 : boardD ray < (sphereFold spheres ray).dist)
    (h7 : boardD ray < 1000) :
    scene_intersect spheres ray =
      some (boardPt ray, ⟨0, 1, 0⟩,
        { (sphereFold spheres ray).material with
            diffuse_color := boardShade (boardPt ray) }) :=
  scene_intersect_plane spheres ray h1 h2 h3 h4 h5 h6 h7

/-- Witness for the amended C4 on `rayC4` in the empty scene. -/
theorem plane_material_amended_witness :
    |rayC4.direction.y| > 0.001 ∧ boardD rayC4 > 0 ∧ |(boardPt rayC4).x| < 10 ∧
      (boardPt rayC4).z < -10 ∧ (boardPt rayC4).z > -30 ∧
      boardD rayC4 < (sphereFold [] rayC4).dist ∧ boardD rayC4 < 1000 ∧
      scene_intersect [] rayC4 =
        some (boardPt rayC4, ⟨0, 1, 0⟩,
          { (sphereFold [] rayC4).material with
              diffuse_color := boardShade (boardPt rayC4) }) := by
  have hd4 : boardD rayC4 = 4 := boardD_vertical (-20)
  have hpt : boardPt rayC4 = ⟨0, -4, -20⟩ := boardPt_vertical (-20)
  have e1 : |rayC4.direction.y| > 0.001 := by
    show |(-1 : ℝ)| > 0.001
    rw [abs_neg, abs_one]
    norm_num
  have e2 : boardD rayC4 > 0 := by rw [hd4]; norm_num
  have e3 : |(boardPt rayC4).x| < 10 := by rw [hpt]; show |(0 : ℝ)| < 10; simp
  have e4 : (boardPt rayC4).z < -10 := by rw [hpt]; show (-20 : ℝ) < -10; norm_num
  have e5 : (boardPt rayC4).z > -30 := by rw [hpt]; show (-20 : ℝ) > -30; norm_num
  have e6 : boardD rayC4 < (sphereFold [] rayC4).dist := by
    show boardD rayC4 < fMAX
    rw [hd4]
    linarith [fMAX_ge_1000]
  have e7 : boardD rayC4 < 1000 := by rw [hd4]; norm_num
  exact ⟨e1, e2, e3, e4, e5, e6, e7,
    plane_material_amended [] rayC4 e1 e2 e3 e4 e5 e6 e7⟩

/-- Downward ray through the board at z = -19. -/
def rayC5a : Ray := ⟨⟨0, 0, -19⟩, ⟨0, -1, 0⟩⟩

/-- Downward ray through the board at z = -12. -/
def rayC5b : Ray := ⟨⟨0, 0, -12⟩, ⟨0, -1, 0⟩⟩

/-- C5 counterexample: the two board hit points (0, -4, -19) and
(0, -4, -12) have the same parity of floored half coordinates, yet receive
different shades, so the shade is not chosen by that floor parity.  The code
truncates toward zero instead of flooring, which differs at the negative
half integer coordinate -9.5. -/
theorem checker_parity_counterexample :
    scene_intersect [] rayC5a =
      some (⟨0, -4, -19⟩, ⟨0, 1, 0⟩,
        { Material.default with diffuse_color := ⟨0.3, 0.3, 0.3⟩ }) ∧
    scene_intersect [] rayC5b =
      some (⟨0, -4, -12⟩, ⟨0, 1, 0⟩,
        { Material.default with diffuse_color := ⟨0.3, 0.2, 0.1⟩ }) ∧
    (⌊(0.5 : ℝ) * (⟨0, -4, -19⟩ : Vec3).x⌋ + ⌊(0.5 : ℝ) * (⟨0, -4, -19⟩ : Vec3).z⌋) % 2 =
      (⌊(0.5 : ℝ) * (⟨0, -4, -12⟩ : Vec3).x⌋ + ⌊(0.5 : ℝ) * (⟨0, -4, -12⟩ : Vec3).z⌋) % 2 ∧
    (⟨0.3, 0.3, 0.3⟩ : Rgb) ≠ ⟨0.3, 0.2, 0.1⟩ := by
  have f0 : ⌊(0.5 : ℝ) * (0 : ℝ)⌋ = 0 := by norm_num
  have f19 : ⌊(0.5 : ℝ) * (-19 : ℝ)⌋ = -10 := by
    rw [show (0.5 : ℝ) * (-19 : ℝ) = -9.5 by norm_num, Int.floor_eq_iff]
    constructor <;> norm_num
  have f12 : ⌊(0.5 : ℝ) * (-12 : ℝ)⌋ = -6 := by
    rw [show (0.5 : ℝ) * (-12 : ℝ) = ((-6 : ℤ) : ℝ) by norm_num, Int.floor_intCast]
  refine ⟨?_, ?_, ?_, ?_⟩
  · rw [show rayC5a = ⟨⟨0, 0, -19⟩, ⟨0, -1, 0⟩⟩ from rfl,
      scene_intersect_vertical (-19) (by norm_num) (by norm_num), boardShade_m19]
  · rw [show rayC5b = ⟨⟨0, 0, -12⟩, ⟨0, -1, 0⟩⟩ from rfl,
      scene_intersect_vertical (-12) (by norm_num) (by norm_num), boardShade_m12]
  · show (⌊(0.5 : ℝ) * (0 : ℝ)⌋ + ⌊(0.5 : ℝ) * (-19 : ℝ)⌋) % 2 =
      (⌊(0.5 : ℝ) * (0 : ℝ)⌋ + ⌊(0.5 : ℝ) * (-12 : ℝ)⌋) % 2
    rw [f0, f19, f12]
    decide
  · intro hco
    have hg := congrArg Rgb.g hco
    norm_num at hg

/-- C5 amended: the shade at a plane hit is chosen by the parity of
floor(0.5 x) plus the toward zero truncation of 0.5 z: the x term of the
code, trunc(0.5 x + 1000), equals floor(0.5 x) + 1000 inside the board
region and the even offset 1000 does not change the parity, while the z term
really is a truncation toward zero, not a floor. -/
theorem checker_parity_amended (spheres : List Sphere) (ray : Ray)
    (h1 : |ray.direction.y| > 0.001) (h2 : boardD ray > 0)
    (h3 : |(boardPt ray).x| < 10) (h4 : (boardPt ray).z < -10)
    (h5 : (boardPt ray).z > -30) (h6 : boardD ray < (sphereFold spheres ray).dist)
    (h7 : boardD ray < 1000) :
    scene_intersect spheres ray =
      some (boardPt ray, ⟨0, 1, 0⟩,
        { (sphereFold spheres ray).material with
            diffuse_color :=
              if (⌊(0.5 : ℝ) * (boardPt ray).x⌋ + fTrunc (0.5 * (boardPt ray).z)) % 2 = 1
              then ⟨0.3, 0.3, 0.3⟩ else ⟨0.3, 0.2, 0.1⟩ }) := by
  rw [scene_intersect_plane spheres ray h1 h2 h3 h4 h5 h6 h7]
  have hpar : ((fTrunc (0.5 * (boardPt ray).x + 1000) + fTrunc (0.5 * (boardPt ray).z)) % 2
        = 1) ↔
      ((⌊(0.5 : ℝ) * (boardPt ray).x⌋ + fTrunc (0.5 * (boardPt ray).z)) % 2 = 1) := by
    rw [fTrunc_add_thousand _ h3]
    omega
  have hsh : boardShade (boardPt ray) =
      (if (⌊(0.5 : ℝ) * (boardPt ray).x⌋ + fTrunc (0.5 * (boardPt ray).z)) % 2 = 1
       then (⟨0.3, 0.3, 0.3⟩ : Rgb) else ⟨0.3, 0.2, 0.1⟩) := by
    rw [boardShade, if_congr hpar rfl rfl]
  rw [hsh]

/-- Witness for the amended C5 on `rayC5b` in the empty scene. -/
theorem checker_parity_amended_witness :
    |rayC5b.direction.y| > 0.001 ∧ boardD rayC5b > 0 ∧ |(boardPt rayC5b).x| < 10 ∧
      (boardPt rayC5b).z < -10 ∧ (boardPt rayC5b).z > -30 ∧
      boardD rayC5b < (sphereFold [] rayC5b).dist ∧ boardD rayC5b < 1000 ∧
      scene_intersect [] rayC5b =
        some (boardPt rayC5b, ⟨0, 1, 0⟩,
          { (sphereFold [] rayC5b).material with
              diffuse_color :=
                if (⌊(0.5 : ℝ) * (boardPt rayC5b).x⌋ +
                      fTrunc (0.5 * (boardPt rayC5b).z)) % 2 = 1
                then ⟨0.3, 0.3, 0.3⟩ else ⟨0.3, 0.2, 0.1⟩ }) := by
  have hd4 : boardD rayC5b = 4 := boardD_vertical (-12)
  have hpt : boardPt rayC5b = ⟨0, -4, -12⟩ := boardPt_vertical (-12)
  have e1 : |rayC5b.direction.y| > 0.001 := by
    show |(-1 : ℝ)| > 0.001
    rw [abs_neg, abs_one]
    norm_num
  have e2 : boardD rayC5b > 0 := by rw [hd4]; norm_num
  have e3 : |(boardPt rayC5b).x| < 10 := by rw [hpt]; show |(0 : ℝ)| < 10; simp
  have e4 : (boardPt rayC5b).z < -10 := by rw [hpt]; show (-12 : ℝ) < -10; norm_num
  have e5 : (boardPt rayC5b).z > -30 := by rw [hpt]; show (-12 : ℝ) > -30; norm_num
  have e6 : boardD rayC5b < (sphereFold [] rayC5b).dist := by
    show boardD rayC5b < fMAX
    rw [hd4]
    linarith [fMAX_ge_1000]
  have e7 : boardD rayC5b < 1000 := by rw [hd4]; norm_num
  exact ⟨e1, e2, e3, e4, e5, e6, e7,
    checker_parity_amended [] rayC5b e1 e2 e3 e4 e5 e6 e7⟩

/-! ## A concrete frame pixel whose primary ray hits the board -/

lemma aspect_eq : aspect = 4 / 3 := by
  rw [aspect]
  norm_num [WIDTH, HEIGHT]

lemma pixelX_512 : pixelX 512 = Real.tan (1 / 2) / 768 := by
  rw [pixelX, scale_eq_tan_half, aspect_eq]
  norm_num [WIDTH]
  ring

lemma pixelY_575 : pixelY 575 = -(383 / 768) * Real.tan (1 / 2) := by
  rw [pixelY, scale_eq_tan_half]
  norm_num [HEIGHT]

lemma boardCond_pixel : boardCond (pixelRay 512 575) := by
  have hb := tan_half_bounds
  set t := Real.tan (1 / 2) with hts
  have hs1 : (0.5418 : ℝ) < t := hb.1
  have hs2 : t < 0.5535 := hb.2
  have ht0 : (0 : ℝ) < t := by linarith
  have hx : pixelX 512 = t / 768 := pixelX_512
  have hy : pixelY 575 = -(383 / 768) * t := pixelY_575
  set v : Vec3 := ⟨pixelX 512, pixelY 575, -1⟩ with hv
  have hq_eq : v.dot v = pixelX 512 * pixelX 512 + pixelY 575 * pixelY 575 + 1 := by
    rw [hv]
    simp only [Vec3.dot]
    norm_num
  have ht2 : t * t < 0.30636225 := by nlinarith
  have hq1 : 1 ≤ v.dot v := by
    rw [hq_eq]
    nlinarith [mul_self_nonneg (pixelX 512), mul_self_nonneg (pixelY 575)]
  have hq2 : v.dot v < 1.0763 := by
    rw [hq_eq, hx, hy]
    nlinarith
  have hm_pos : 0 < v.magnitude := Real.sqrt_pos.mpr (by linarith)
  have hm_sq : v.magnitude ^ 2 = v.dot v := Real.sq_sqrt (by linarith)
  have hm_ge1 : 1 ≤ v.magnitude := by nlinarith
  have hm_lt : v.magnitude < 1.04 := by nlinarith
  have hy_neg : pixelY 575 < 0 := by rw [hy]; nlinarith
  have hdy : (pixelRay 512 575).direction.y = pixelY 575 / v.magnitude := rfl
  have hd_eq : boardD (pixelRay 512 575) = -(0 + 4) / (pixelY 575 / v.magnitude) := rfl
  have hd_val : boardD (pixelRay 512 575) = 4 * v.magnitude / ((383 / 768) * t) := by
    rw [hd_eq, hy]
    field_simp
    ring
  have hptx : (boardPt (pixelRay 512 575)).x =
      0 + pixelX 512 / v.magnitude * boardD (pixelRay 512 575) := rfl
  have hptz : (boardPt (pixelRay 512 575)).z =
      0 + -1 / v.magnitude * boardD (pixelRay 512 575) := rfl
  have hptx_val : (boardPt (pixelRay 512 575)).x = 4 / 383 := by
    rw [hptx, hd_val, hx]
    field_simp
    ring
  have hptz_val : (boardPt (pixelRay 512 575)).z = -3072 / (383 * t) := by
    rw [hptz, hd_val]
    field_simp
    ring
  have h383t : (0 : ℝ) < 383 * t := by nlinarith
  refine ⟨?_, ?_, ?_, ?_, ?_, ?_, ?_⟩
  · rw [hdy, abs_div, abs_of_pos hm_pos]
    have hy_abs : |pixelY 575| = (383 / 768) * t := by
      rw [abs_of_neg hy_neg, hy]
      ring
    rw [hy_abs, gt_iff_lt, lt_div_iff₀ hm_pos]
    linarith
  · rw [hd_val]
    exact div_pos (mul_pos (by norm_num) hm_pos) (by linarith)
  · rw [hptx_val]
    rw [abs_of_pos (by norm_num : (0 : ℝ) < 4 / 383)]
    norm_num
  · rw [hptz_val, div_lt_iff₀ h383t]
    linarith
  · rw [hptz_val, gt_iff_lt, lt_div_iff₀ h383t]
    linarith
  · refine lt_of_lt_of_le ?_ fMAX_ge_1000
    rw [hd_val, div_lt_iff₀ (by linarith : (0 : ℝ) < 383 / 768 * t)]
    linarith
  · rw [hd_val, div_lt_iff₀ (by linarith : (0 : ℝ) < 383 / 768 * t)]
    linarith

/-- C3 counterexample: in the empty scene (zero spheres, zero lights) the
frame pixel (512, 575) does not serialize to the background bytes — its
primary ray hits the checkerboard plane, which is shaded black without
lights, so it serializes to (0, 0, 0). -/
theorem render_empty_counterexample :
    pixel_bytes (render_pixel [] [] 512 575) ≠ (51, 178, 204) := by
  rw [render_pixel, cast_ray_nil_hit _ boardCond_pixel, pixel_bytes_black]
  decide
